import Mathlib

/-!
Verification of the concurrent reordering and real-time propagation protocol
of the Mini-Trello kanban application.

The definitions below are a shallow embedding of the relevant source code:

* `backend/src/routes/cards.ts` — card creation (`POST /cards`) and the move
  endpoint (`PUT /cards/:id/move`);
* the lists router — list creation (`POST /lists`) and the reorder endpoint
  (`PUT /lists/reorder`);
* the socket handlers (`setupSocketHandlers`) — `join-board`, `leave-board`
  and the five relayed events (`card-moved`, `card-updated`, `comment-added`,
  `list-updated`, `lists-reordered`);
* `frontend/src/pages/Board.tsx` — `handleDragEnd` (same-list branch),
  `moveCardMutation`, and the five client socket event handlers.

Positions (`orderKey` in the design documents) are JavaScript numbers in the
source; every position this code computes and persists is an integer
(`(index + 1) * 1000`, `maxSibling + 1000`), so positions are modelled as
integers (`Int`); handlers that accept a client-supplied position are
quantified over every integer.
-/

namespace MiniTrello

/-- A card row: `id`, parent list (`listId`) and numeric `position`
(the card's order key within its list). -/
structure Card where
  id : String
  listId : String
  position : Int
  deriving DecidableEq, Repr

/-- A list row: `id`, parent board (`boardId`) and numeric `position`
(the list's order key within its board). -/
structure BoardList where
  id : String
  boardId : String
  position : Int
  deriving DecidableEq, Repr

/-- A board row: only the fields the access checks read (`ownerId` and the
user ids of its `members`). -/
structure Board where
  id : String
  ownerId : String
  memberUserIds : List String
  deriving DecidableEq, Repr

/-- The persistent store, as the handlers see it. -/
structure DB where
  boards : List Board
  lists : List BoardList
  cards : List Card
  deriving DecidableEq, Repr

/-- The Prisma access condition used by every handler:
`OR: [{ ownerId: user.id }, { members: { some: { userId: user.id } } }]`. -/
def boardAccessOk (b : Board) (userId : String) : Bool :=
  b.ownerId == userId || b.memberUserIds.contains userId

/-- `prisma.board.findFirst({ where: { id: boardId, OR: [...] } })`:
the board with the given id, provided the user is its owner or a member. -/
def findAccessibleBoard (db : DB) (userId boardId : String) : Option Board :=
  db.boards.find? fun b => b.id == boardId && boardAccessOk b userId

/-- Plain lookup of a list row by id. -/
def findListById (db : DB) (listId : String) : Option BoardList :=
  db.lists.find? fun l => l.id == listId

/-- `prisma.list.findFirst({ where: { id: listId, board: { OR: [...] } } })`:
the list with the given id, provided the user can access its board. -/
def findAccessibleList (db : DB) (userId listId : String) : Option BoardList :=
  db.lists.find? fun l => l.id == listId &&
    (match db.boards.find? (fun b => b.id == l.boardId) with
     | some b => boardAccessOk b userId
     | none => false)

/-- `prisma.card.findFirst({ where: { id: cardId, list: { board: { OR: [...] } } } })`:
the card with the given id, provided the user can access the board of its list. -/
def findAccessibleCard (db : DB) (userId cardId : String) : Option Card :=
  db.cards.find? fun c => c.id == cardId &&
    (match findListById db c.listId with
     | some l =>
       (match db.boards.find? (fun b => b.id == l.boardId) with
        | some b => boardAccessOk b userId
        | none => false)
     | none => false)

/-- The accumulator step realising Prisma's
`findFirst({ orderBy: { position: 'desc' } })`: keep a row of maximal
position among the rows seen so far. -/
def maxByPositionStep {α : Type} (pos : α → Int) (acc : Option α) (x : α) :
    Option α :=
  match acc with
  | none => some x
  | some b => if pos b < pos x then some x else some b

/-- `prisma.card.findFirst({ where: { listId }, orderBy: { position: 'desc' } })`:
a sibling card of maximal position, or `none` when the list is empty. -/
def lastCardByPositionDesc (cards : List Card) (listId : String) : Option Card :=
  (cards.filter (fun c => c.listId == listId)).foldl
    (maxByPositionStep (fun c => c.position)) none

/-- `prisma.list.findFirst({ where: { boardId }, orderBy: { position: 'desc' } })`:
a sibling list of maximal position, or `none` when the board has no lists. -/
def lastListByPositionDesc (lists : List BoardList) (boardId : String) : Option BoardList :=
  (lists.filter (fun l => l.boardId == boardId)).foldl
    (maxByPositionStep (fun l => l.position)) none

/-- Outcome of `POST /cards` / `POST /lists`: a 403 or the created row. -/
inductive CreateResult (α : Type)
  | accessDenied
  | created (row : α)
  deriving DecidableEq, Repr

/-- `POST /cards` (cards router): after the access check, the assigned
position is the supplied one, or `lastCard ? lastCard.position + 1000 : 1000`
when the request carries no position.  `newId` stands for the id the store
assigns to the created row. -/
def createCardHandler (db : DB) (userId : String) (listId : String)
    (positionOpt : Option Int) (newId : String) : CreateResult Card × DB :=
  match findAccessibleList db userId listId with
  | none => (.accessDenied, db)
  | some _ =>
    let cardPosition : Int :=
      match positionOpt with
      | some p => p
      | none =>
        match lastCardByPositionDesc db.cards listId with
        | some lastCard => lastCard.position + 1000
        | none => 1000
    let card : Card := { id := newId, listId := listId, position := cardPosition }
    (.created card, { db with cards := db.cards ++ [card] })

/-- `POST /lists` (lists router): after the access check, the assigned
position is the supplied one, or `lastList ? lastList.position + 1000 : 1000`
when the request carries no position. -/
def createListHandler (db : DB) (userId : String) (boardId : String)
    (positionOpt : Option Int) (newId : String) : CreateResult BoardList × DB :=
  match findAccessibleBoard db userId boardId with
  | none => (.accessDenied, db)
  | some _ =>
    let listPosition : Int :=
      match positionOpt with
      | some p => p
      | none =>
        match lastListByPositionDesc db.lists boardId with
        | some lastList => lastList.position + 1000
        | none => 1000
    let lst : BoardList := { id := newId, boardId := boardId, position := listPosition }
    (.created lst, { db with lists := db.lists ++ [lst] })

/-- The body of `PUT /cards/:id/move`: `{ cardId (from the URL), listId,
position (from the request body) }`. -/
structure MoveRequest where
  cardId : String
  listId : String
  position : Int
  deriving DecidableEq, Repr

/-- Outcome of `PUT /cards/:id/move`: a 404 (card or target list not found or
not accessible) or the updated card.  The handler has no other failure path:
in particular there is no range / neighbour-key check on `position`. -/
inductive MoveCardResult
  | notFound
  | moved (card : Card)
  deriving DecidableEq, Repr

/-- The `prisma.card.update({ where: { id }, data: { listId, position } })`
step of the move handler, as a per-row function on the card table. -/
def moveCardUpd (req : MoveRequest) (c : Card) : Card :=
  if c.id == req.cardId then
    { c with listId := req.listId, position := req.position }
  else c

/-- `PUT /cards/:id/move` (cards router): looks up (in parallel) the card and
the target list under the access condition; if both are found, updates the
card with exactly the client-supplied `{ listId, position }` pair. -/
def moveCardHandler (db : DB) (userId : String) (req : MoveRequest) :
    MoveCardResult × DB :=
  match findAccessibleCard db userId req.cardId,
        findAccessibleList db userId req.listId with
  | some card, some _ =>
    (.moved { card with listId := req.listId, position := req.position },
     { db with cards := db.cards.map (moveCardUpd req) })
  | _, _ => (.notFound, db)

/-- `newCards.splice(i, 1)`: remove the element at index `i`. -/
def spliceRemove (cards : List Card) (i : Nat) : List Card :=
  cards.take i ++ cards.drop (i + 1)

/-- `newCards.splice(i, 0, c)`: insert `c` at index `i`. -/
def spliceInsert (cards : List Card) (i : Nat) (c : Card) : List Card :=
  cards.take i ++ [c] ++ cards.drop i

/-- `cards.map((card, index) => ({ ...card, position: (index + 1) * 1000 }))`,
with `i` the index of the first element. -/
def renumberFrom (i : Nat) : List Card → List Card
  | [] => []
  | c :: rest => { c with position := ((i : Int) + 1) * 1000 } :: renumberFrom (i + 1) rest

/-- The index-based renumbering the client applies to a whole list of cards. -/
def renumberByIndex (cards : List Card) : List Card :=
  renumberFrom 0 cards

/-- What the same-list branch of `handleDragEnd` computes: the optimistic
cards for the source list, and the single move request it persists. -/
structure SameListDragResult where
  optimisticCards : List Card
  request : MoveRequest
  deriving DecidableEq, Repr

/-- The same-list branch of `handleDragEnd` (`Board.tsx`): after the early
return for a drop on the same index, the dragged card is spliced from
`sourceIndex` to `destIndex`, every card of the list is renumbered to
`(index + 1) * 1000` in the optimistic view, and a single mutation is issued
for the moved card only, carrying its renumbered position.  `none` models the
early returns (same index, or indices outside the list, which a real drag
never produces). -/
def handleDragEndSameList (sourceListId : String) (cards : List Card)
    (sourceIndex destIndex : Nat) : Option SameListDragResult :=
  if destIndex == sourceIndex then none
  else
    match cards.get? sourceIndex with
    | none => none
    | some movedCard =>
      let newCards := spliceInsert (spliceRemove cards sourceIndex) destIndex movedCard
      let updatedCards := renumberByIndex newCards
      match updatedCards.get? destIndex with
      | none => none
      | some movedCardData =>
        some { optimisticCards := updatedCards,
               request := { cardId := movedCardData.id, listId := sourceListId,
                            position := movedCardData.position } }

/-- The observable effects of the client-side move mutation
(`moveCardMutation` in `Board.tsx`). -/
inductive ClientEffect
  | httpPutMove (req : MoveRequest)
  | toastError
  | invalidateBoardQuery
  | socketEmit (event : String)
  deriving DecidableEq, Repr

/-- `moveCardMutation`: the mutation issues the HTTP `PUT /cards/:id/move`;
on error it toasts and invalidates the board query; it has no `onSuccess`
handler, and in particular it emits nothing on the socket. -/
def moveCardMutationEffects (req : MoveRequest) (persistOk : Bool) :
    List ClientEffect :=
  if persistOk then [.httpPutMove req]
  else [.httpPutMove req, .toastError, .invalidateBoardQuery]

/-- One `prisma.list.update({ where: { id: lid }, data: { position: key } })`
of the reorder batch, as a per-row function on the list table. -/
def listPosUpd (lid : String) (key : Int) (l : BoardList) : BoardList :=
  if l.id == lid then { l with position := key } else l

/-- `PUT /lists/reorder`: the per-list position updates,
`listIds.map((listId, index) => prisma.list.update({ where: { id: listId },
data: { position: (index + 1) * 1000 } }))`, applied in order (`n` is the
index of the first remaining id).  For distinct ids the row updates are
independent, so this sequential application is the net effect of the
`Promise.all` batch. -/
def applyListUpdatesFrom (n : Nat) (listIds : List String)
    (lists : List BoardList) : List BoardList :=
  match listIds with
  | [] => lists
  | lid :: rest =>
    applyListUpdatesFrom (n + 1) rest
      (lists.map (listPosUpd lid (((n : Int) + 1) * 1000)))

/-- `PUT /lists/reorder` (lists router): access check on the board, then the
batch of per-list position updates.  `none` models the 403. -/
def reorderListsHandler (db : DB) (userId boardId : String)
    (listIds : List String) : Option DB :=
  match findAccessibleBoard db userId boardId with
  | none => none
  | some _ => some { db with lists := applyListUpdatesFrom 0 listIds db.lists }

/-- The reorder batch with per-update failures.  The source runs the updates
as `Promise.all` of independent `prisma.list.update` calls with no enclosing
transaction: an update that fails leaves its own row unchanged, the other
updates still commit, and the route reports failure (500) when any update
failed.  `failsAt i` says whether the update for the `i`-th id fails. -/
def applyListUpdatesFallible (n : Nat) (listIds : List String)
    (failsAt : Nat → Bool) (lists : List BoardList) : List BoardList × Bool :=
  match listIds with
  | [] => (lists, true)
  | lid :: rest =>
    let lists' :=
      if failsAt n then lists
      else lists.map (listPosUpd lid (((n : Int) + 1) * 1000))
    let step := applyListUpdatesFallible (n + 1) rest failsAt lists'
    (step.1, step.2 && !failsAt n)

/-- Socket.io room state: each room (`board-${boardId}`) maps to the socket
ids currently joined to it. -/
abbrev Rooms := List (String × List String)

/-- The sockets currently in a room (empty when the room does not exist). -/
def roomMembers (rooms : Rooms) (roomName : String) : List String :=
  match rooms.find? (fun r => r.1 == roomName) with
  | some r => r.2
  | none => []

/-- The room name used by every handler: `` `board-${boardId}` ``. -/
def boardRoom (boardId : String) : String :=
  "board-" ++ boardId

/-- The per-room update `socket.join` performs: the named room gains the
socket (if not already present); other rooms are untouched. -/
def socketJoinUpd (roomName socketId : String) (x : String × List String) :
    String × List String :=
  if x.1 == roomName then
    (x.1, if x.2.contains socketId then x.2 else x.2 ++ [socketId])
  else x

/-- `socket.join(room)`: add the socket to the room, creating the room on its
first subscriber; joining twice is idempotent. -/
def socketJoin (rooms : Rooms) (roomName socketId : String) : Rooms :=
  match rooms.find? (fun r => r.1 == roomName) with
  | some _ => rooms.map (socketJoinUpd roomName socketId)
  | none => rooms ++ [(roomName, [socketId])]

/-- `socket.leave(room)`: remove the socket from the room. -/
def socketLeave (rooms : Rooms) (roomName socketId : String) : Rooms :=
  rooms.map fun r =>
    if r.1 == roomName then (r.1, r.2.filter (fun s => s != socketId)) else r

/-- `socket.to(room).emit(...)`: socket.io delivers the event to every socket
currently in the room except the emitting socket itself (the source comments
this as "Broadcast to all users in the board room except sender"). -/
def socketToEmitTargets (rooms : Rooms) (senderSocketId roomName : String) :
    List String :=
  (roomMembers rooms roomName).filter (fun s => s != senderSocketId)

/-- Messages a handler could send back to the requesting socket.  The type
lists the error report the design documents call `AuthorizationError`; the
embedded handlers never produce it. -/
inductive ServerReply
  | authorizationError
  deriving DecidableEq, Repr

/-- Outcome of the `join-board` handler: the new room state and whatever was
sent back to the requesting socket. -/
structure JoinBoardOutcome where
  rooms : Rooms
  repliesToRequester : List ServerReply
  deriving DecidableEq, Repr

/-- `socket.on('join-board')`: checks that the user owns or is a member of
the board; on success the socket joins `board-${boardId}`; otherwise the
handler does nothing — it sends no reply in either case. -/
def onJoinBoard (db : DB) (rooms : Rooms) (socketId userId boardId : String) :
    JoinBoardOutcome :=
  match findAccessibleBoard db userId boardId with
  | some _ =>
    { rooms := socketJoin rooms (boardRoom boardId) socketId
      repliesToRequester := [] }
  | none =>
    { rooms := rooms, repliesToRequester := [] }

/-- `socket.on('card-moved')`: after the board access check on the sender,
relays the event via `socket.to(`board-${boardId}`).emit`; the result is the
list of sockets the event is delivered to. -/
def onCardMoved (db : DB) (rooms : Rooms)
    (senderSocketId senderUserId boardId : String) : List String :=
  match findAccessibleBoard db senderUserId boardId with
  | some _ => socketToEmitTargets rooms senderSocketId (boardRoom boardId)
  | none => []

/-- `socket.on('card-updated')`: same relay shape as `card-moved`. -/
def onCardUpdated (db : DB) (rooms : Rooms)
    (senderSocketId senderUserId boardId : String) : List String :=
  match findAccessibleBoard db senderUserId boardId with
  | some _ => socketToEmitTargets rooms senderSocketId (boardRoom boardId)
  | none => []

/-- `socket.on('comment-added')`: same relay shape as `card-moved`. -/
def onCommentAdded (db : DB) (rooms : Rooms)
    (senderSocketId senderUserId boardId : String) : List String :=
  match findAccessibleBoard db senderUserId boardId with
  | some _ => socketToEmitTargets rooms senderSocketId (boardRoom boardId)
  | none => []

/-- `socket.on('list-updated')`: same relay shape as `card-moved`. -/
def onListUpdated (db : DB) (rooms : Rooms)
    (senderSocketId senderUserId boardId : String) : List String :=
  match findAccessibleBoard db senderUserId boardId with
  | some _ => socketToEmitTargets rooms senderSocketId (boardRoom boardId)
  | none => []

/-- `socket.on('lists-reordered')`: same relay shape as `card-moved`. -/
def onListsReordered (db : DB) (rooms : Rooms)
    (senderSocketId senderUserId boardId : String) : List String :=
  match findAccessibleBoard db senderUserId boardId with
  | some _ => socketToEmitTargets rooms senderSocketId (boardRoom boardId)
  | none => []

/-- End-to-end delivery of `card-moved` for one client move: the server-side
relay runs only when it receives a `card-moved` socket message, and the only
candidate sender during a move is the moving client's own flow (the REST
handler `PUT /cards/:id/move` emits no socket event).  The result is the list
of sockets that receive a `card-moved` event as a consequence of the given
client effects. -/
def cardMovedDeliveries (db : DB) (rooms : Rooms)
    (senderSocketId senderUserId boardId : String)
    (clientEffects : List ClientEffect) : List String :=
  if clientEffects.contains (.socketEmit "card-moved") then
    onCardMoved db rooms senderSocketId senderUserId boardId
  else []

/-- What a client socket handler does with a relayed event. -/
inductive ClientReaction
  | refetchBoard
  | ignore
  deriving DecidableEq, Repr

/-- `handleCardMoved` (`Board.tsx`): invalidates the board query (a full
refetch) exactly when `data.movedBy?.id !== user?.id`; otherwise it does
nothing.  The handler never touches the cached board data itself. -/
def handleCardMovedClient (selfUserId movedById : Option String) :
    ClientReaction :=
  if movedById != selfUserId then .refetchBoard else .ignore

/-- `handleCardUpdated` (`Board.tsx`): refetch iff `updatedBy?.id` differs. -/
def handleCardUpdatedClient (selfUserId updatedById : Option String) :
    ClientReaction :=
  if updatedById != selfUserId then .refetchBoard else .ignore

/-- `handleCommentAdded` (`Board.tsx`): refetch iff `addedBy?.id` differs. -/
def handleCommentAddedClient (selfUserId addedById : Option String) :
    ClientReaction :=
  if addedById != selfUserId then .refetchBoard else .ignore

/-- `handleListUpdated` (`Board.tsx`): refetch iff `updatedBy?.id` differs. -/
def handleListUpdatedClient (selfUserId updatedById : Option String) :
    ClientReaction :=
  if updatedById != selfUserId then .refetchBoard else .ignore

/-- `handleListsReordered` (`Board.tsx`): refetch iff `reorderedBy?.id`
differs. -/
def handleListsReorderedClient (selfUserId reorderedById : Option String) :
    ClientReaction :=
  if reorderedById != selfUserId then .refetchBoard else .ignore

/-! ### Invariants and fixtures -/

/-- The distinct-`orderKey` invariant of the design documents, restricted to
the cards of one list: no two sibling cards share a `position`. -/
@[reducible] def cardPositionsDistinct (cards : List Card) (listId : String) : Prop :=
  ((cards.filter fun c => c.listId == listId).map fun c => c.position).Nodup

/-- The distinct-`orderKey` invariant for the lists of one board. -/
@[reducible] def listPositionsDistinct (lists : List BoardList) (boardId : String) : Prop :=
  ((lists.filter fun l => l.boardId == boardId).map fun l => l.position).Nodup

/-- A concrete store: board `B1` owned by `u1` with member `u2`; one list `L`
holding cards `A` (position 1000) and `C` (position 2000), the concrete
scenario of the design documents. -/
def dbLA : DB :=
  { boards := [⟨"B1", "u1", ["u2"]⟩]
    lists := [⟨"L", "B1", 1000⟩]
    cards := [⟨"A", "L", 1000⟩, ⟨"C", "L", 2000⟩] }

/-- A concrete store: board `B1` owned by `u1`, two lists `L1` (1000) and
`L2` (2000), no cards. -/
def dbTwoLists : DB :=
  { boards := [⟨"B1", "u1", ["u2"]⟩]
    lists := [⟨"L1", "B1", 1000⟩, ⟨"L2", "B1", 2000⟩]
    cards := [] }

/-! ### Claims -/

/-- C1: the claimed invariant — after any sequence of create, move and
reorder operations, sibling positions stay pairwise distinct and their
ascending order is the intended display order — is broken by the code at a
concrete input.  Starting from list `L` with cards `A` (1000) and `C` (2000)
(positions distinct), the within-list drag of the card at index 1 (`C`) to
index 0 renumbers the whole list only in the optimistic view and persists a
single move request for `C` with position 1000; applying it on the server
leaves the persisted siblings `A` and `C` both at position 1000, so the
pairwise-distinct invariant fails after one within-list move. -/
theorem C1_within_list_move_breaks_distinct_positions :
    cardPositionsDistinct dbLA.cards "L" ∧
    handleDragEndSameList "L" dbLA.cards 1 0 =
      some { optimisticCards := [⟨"C", "L", 1000⟩, ⟨"A", "L", 2000⟩]
             request := ⟨"C", "L", 1000⟩ } ∧
    (moveCardHandler dbLA "u1" ⟨"C", "L", 1000⟩).2.cards =
      [⟨"A", "L", 1000⟩, ⟨"C", "L", 1000⟩] ∧
    ¬ cardPositionsDistinct (moveCardHandler dbLA "u1" ⟨"C", "L", 1000⟩).2.cards "L" := by
  refine ⟨by decide, by decide, by decide, by decide⟩

/-- C2 counterexample: in list `L` = `[A(1000), C(2000)]`, moving the card at
index 1 (`C`) to index 0 does not assign `C` the order key 500 claimed via
`allocateBetween(none, 1000)`: the persisted request carries position 1000,
and the persisted outcome is not `[C(500), A(1000)]`. -/
theorem C2_counterexample_position_1000_not_500 :
    (handleDragEndSameList "L" dbLA.cards 1 0).map (fun r => r.request.position) =
      some 1000 ∧
    (1000 : Int) ≠ 500 ∧
    (moveCardHandler dbLA "u1" ⟨"C", "L", 1000⟩).2.cards ≠
      [⟨"C", "L", 500⟩, ⟨"A", "L", 1000⟩] := by
  refine ⟨by decide, by decide, by decide⟩

/-- C2 (amended): in list `L` with cards `[A(1000), C(2000)]`, moving the
card at index 1 (`C`) to index 0 within `L` assigns `C` the position
`(0 + 1) * 1000 = 1000` computed by the client's whole-list index
renumbering (the code has no `allocateBetween`); only `C`'s move is
persisted, so the optimistic view shows `[C(1000), A(2000)]` while the
persisted store holds `A` and `C` both at position 1000. -/
theorem C2_moved_card_gets_index_key :
    handleDragEndSameList "L" dbLA.cards 1 0 =
      some { optimisticCards := [⟨"C", "L", 1000⟩, ⟨"A", "L", 2000⟩]
             request := ⟨"C", "L", 1000⟩ } ∧
    (moveCardHandler dbLA "u1" ⟨"C", "L", 1000⟩).1 = .moved ⟨"C", "L", 1000⟩ ∧
    (moveCardHandler dbLA "u1" ⟨"C", "L", 1000⟩).2.cards =
      [⟨"A", "L", 1000⟩, ⟨"C", "L", 1000⟩] := by
  refine ⟨by decide, by decide, by decide⟩

/-- C5: the claim fails on the code.  With sockets `s1` (user `u1`) and `s2`
(user `u2`) both joined to board `B1`'s room, a move by client 1 whose
persistence succeeds produces no socket emission at all — `moveCardMutation`
issues only the HTTP request, and the REST move handler broadcasts nothing —
so no `card-moved` event is delivered to client 2.  The relay machinery
itself would deliver exactly to `s2` had a `card-moved` message ever been
sent, which shows where the flow is severed. -/
theorem C5_no_card_moved_delivered_to_peer :
    moveCardMutationEffects ⟨"C", "L", 1000⟩ true =
      [.httpPutMove ⟨"C", "L", 1000⟩] ∧
    cardMovedDeliveries dbLA [(boardRoom "B1", ["s1", "s2"])] "s1" "u1" "B1"
      (moveCardMutationEffects ⟨"C", "L", 1000⟩ true) = [] ∧
    onCardMoved dbLA [(boardRoom "B1", ["s1", "s2"])] "s1" "u1" "B1" = ["s2"] := by
  refine ⟨by decide, by decide, by decide⟩

/-- C8: the claim fails on the code.  Reordering `[L2, L1]` over the lists
`L1(1000), L2(2000)` when the second update fails (after the first committed)
leaves the store with `L2` renumbered to 1000 and `L1` untouched at 1000: the
outcome is neither the initial state nor the fully renumbered state, the
request as a whole reports failure, and the partial application leaves two
sibling lists sharing position 1000 — the batch is `Promise.all` of
independent updates, not an atomic transaction. -/
theorem C8_reorder_batch_not_atomic :
    applyListUpdatesFallible 0 ["L2", "L1"] (fun i => i == 1) dbTwoLists.lists =
      ([⟨"L1", "B1", 1000⟩, ⟨"L2", "B1", 1000⟩], false) ∧
    ([⟨"L1", "B1", 1000⟩, ⟨"L2", "B1", 1000⟩] : List BoardList) ≠ dbTwoLists.lists ∧
    ([⟨"L1", "B1", 1000⟩, ⟨"L2", "B1", 1000⟩] : List BoardList) ≠
      applyListUpdatesFrom 0 ["L2", "L1"] dbTwoLists.lists ∧
    listPositionsDistinct dbTwoLists.lists "B1" ∧
    ¬ listPositionsDistinct [⟨"L1", "B1", 1000⟩, ⟨"L2", "B1", 1000⟩] "B1" := by
  refine ⟨by decide, by decide, by decide, by decide, by decide⟩

/-! ### Broker properties -/

/-- `socket.to(room).emit` never targets the emitting socket. -/
theorem socketToEmitTargets_not_sender (rooms : Rooms) (s roomName : String) :
    s ∉ socketToEmitTargets rooms s roomName := by
  intro h
  have h' := List.of_mem_filter h
  simp at h'

/-- `socket.to(room).emit` targets only current members of the room. -/
theorem socketToEmitTargets_subset (rooms : Rooms) (s roomName : String) :
    ∀ x ∈ socketToEmitTargets rooms s roomName, x ∈ roomMembers rooms roomName :=
  fun _ h => List.mem_of_mem_filter h

/-- The five relay handlers share one delivery computation. -/
theorem onCardUpdated_eq (db : DB) (rooms : Rooms) (s u b : String) :
    onCardUpdated db rooms s u b = onCardMoved db rooms s u b := rfl

/-- `comment-added` relays exactly like `card-moved`. -/
theorem onCommentAdded_eq (db : DB) (rooms : Rooms) (s u b : String) :
    onCommentAdded db rooms s u b = onCardMoved db rooms s u b := rfl

/-- `list-updated` relays exactly like `card-moved`. -/
theorem onListUpdated_eq (db : DB) (rooms : Rooms) (s u b : String) :
    onListUpdated db rooms s u b = onCardMoved db rooms s u b := rfl

/-- `lists-reordered` relays exactly like `card-moved`. -/
theorem onListsReordered_eq (db : DB) (rooms : Rooms) (s u b : String) :
    onListsReordered db rooms s u b = onCardMoved db rooms s u b := rfl

/-- Core of C3, for the shared delivery computation. -/
theorem onCardMoved_not_sender_and_subset (db : DB) (rooms : Rooms)
    (s u b : String) :
    s ∉ onCardMoved db rooms s u b ∧
      ∀ x ∈ onCardMoved db rooms s u b, x ∈ roomMembers rooms (boardRoom b) := by
  unfold onCardMoved
  cases hfb : findAccessibleBoard db u b with
  | none => simp
  | some board =>
    exact ⟨socketToEmitTargets_not_sender rooms s (boardRoom b),
           socketToEmitTargets_subset rooms s (boardRoom b)⟩

/-- C3: for each of the five relayed events (`card-moved`, `card-updated`,
`comment-added`, `list-updated`, `lists-reordered`), the delivery set never
contains the originating socket, and every delivered socket is a current
member of the board's room. -/
theorem C3_relay_excludes_origin_connection (db : DB) (rooms : Rooms)
    (senderSocketId senderUserId boardId : String) :
    (senderSocketId ∉ onCardMoved db rooms senderSocketId senderUserId boardId ∧
      ∀ x ∈ onCardMoved db rooms senderSocketId senderUserId boardId,
        x ∈ roomMembers rooms (boardRoom boardId)) ∧
    (senderSocketId ∉ onCardUpdated db rooms senderSocketId senderUserId boardId ∧
      ∀ x ∈ onCardUpdated db rooms senderSocketId senderUserId boardId,
        x ∈ roomMembers rooms (boardRoom boardId)) ∧
    (senderSocketId ∉ onCommentAdded db rooms senderSocketId senderUserId boardId ∧
      ∀ x ∈ onCommentAdded db rooms senderSocketId senderUserId boardId,
        x ∈ roomMembers rooms (boardRoom boardId)) ∧
    (senderSocketId ∉ onListUpdated db rooms senderSocketId senderUserId boardId ∧
      ∀ x ∈ onListUpdated db rooms senderSocketId senderUserId boardId,
        x ∈ roomMembers rooms (boardRoom boardId)) ∧
    (senderSocketId ∉ onListsReordered db rooms senderSocketId senderUserId boardId ∧
      ∀ x ∈ onListsReordered db rooms senderSocketId senderUserId boardId,
        x ∈ roomMembers rooms (boardRoom boardId)) := by
  have h := onCardMoved_not_sender_and_subset db rooms senderSocketId senderUserId boardId
  exact ⟨h,
    by rw [onCardUpdated_eq]; exact h,
    by rw [onCommentAdded_eq]; exact h,
    by rw [onListUpdated_eq]; exact h,
    by rw [onListsReordered_eq]; exact h⟩

/-- `socketJoinUpd` preserves each room's name. -/
theorem socketJoinUpd_fst (roomName socketId : String)
    (x : String × List String) :
    (socketJoinUpd roomName socketId x).1 = x.1 := by
  unfold socketJoinUpd
  split <;> rfl

/-- Room lookup commutes with the pointwise update `socketJoin` performs,
because the update preserves each room's name. -/
theorem find?_map_socketJoinUpd (roomName socketId : String) :
    ∀ (rooms : Rooms) (r : String × List String),
      rooms.find? (fun x => x.1 == roomName) = some r →
      (rooms.map (socketJoinUpd roomName socketId)).find?
          (fun x => x.1 == roomName) =
        some (socketJoinUpd roomName socketId r) := by
  intro rooms
  induction rooms with
  | nil => intro r h; simp at h
  | cons a t ih =>
    intro r h
    rw [List.find?_cons] at h
    rw [List.map_cons, List.find?_cons]
    by_cases ha : (a.1 == roomName) = true
    · rw [ha] at h
      cases h
      rw [socketJoinUpd_fst, ha]
    · have ha' : (a.1 == roomName) = false := by simpa using ha
      rw [ha'] at h
      rw [socketJoinUpd_fst, ha']
      exact ih r h

/-- After `socket.join(room)`, the joining socket is a member of the room. -/
theorem mem_roomMembers_socketJoin (rooms : Rooms) (roomName socketId : String) :
    socketId ∈ roomMembers (socketJoin rooms roomName socketId) roomName := by
  unfold socketJoin
  cases hf : rooms.find? (fun r => r.1 == roomName) with
  | none =>
    unfold roomMembers
    rw [List.find?_append, hf]
    simp [List.find?]
  | some r =>
    unfold roomMembers
    rw [find?_map_socketJoinUpd roomName socketId rooms r hf]
    show socketId ∈ (socketJoinUpd roomName socketId r).2
    have hr : (r.1 == roomName) = true := by
      have h := List.find?_some hf
      simpa using h
    unfold socketJoinUpd
    rw [if_pos hr]
    show socketId ∈ (if r.2.contains socketId then r.2 else r.2 ++ [socketId])
    by_cases hc : r.2.contains socketId = true
    · rw [if_pos hc]
      simp at hc
      exact hc
    · rw [if_neg hc]
      simp

/-- C4 counterexample: a join-board request by `intruder`, who is neither
owner nor member of board `B1`, is rejected without any report to the
requester: the room state is unchanged, but no `AuthorizationError` (nor
anything else) is sent back — the rejection is silent, contradicting the
claim that the failure is reported to the requester. -/
theorem C4_counterexample_silent_rejection :
    (onJoinBoard dbLA [(boardRoom "B1", ["s1"])] "s9" "intruder" "B1").rooms =
      [(boardRoom "B1", ["s1"])] ∧
    (onJoinBoard dbLA [(boardRoom "B1", ["s1"])] "s9" "intruder" "B1").repliesToRequester
      = [] ∧
    ServerReply.authorizationError ∉
      (onJoinBoard dbLA [(boardRoom "B1", ["s1"])] "s9" "intruder" "B1").repliesToRequester := by
  refine ⟨by decide, by decide, by decide⟩

/-- C4 (amended): a join-board request by a principal without read access to
the board (neither owner nor member) leaves the room membership unchanged and
sends nothing back to the requester — the rejection is silent, no
`AuthorizationError` is reported; a principal with owner or member access is
added to the board room's subscriber set, likewise with no reply. -/
theorem C4_join_board_membership (db : DB) (rooms : Rooms)
    (socketId userId boardId : String) :
    (findAccessibleBoard db userId boardId = none →
      onJoinBoard db rooms socketId userId boardId =
        { rooms := rooms, repliesToRequester := [] }) ∧
    (findAccessibleBoard db userId boardId ≠ none →
      socketId ∈ roomMembers
        (onJoinBoard db rooms socketId userId boardId).rooms (boardRoom boardId) ∧
      (onJoinBoard db rooms socketId userId boardId).repliesToRequester = []) := by
  constructor
  · intro h
    unfold onJoinBoard
    rw [h]
  · intro h
    cases hfb : findAccessibleBoard db userId boardId with
    | none => exact absurd hfb h
    | some board =>
      unfold onJoinBoard
      rw [hfb]
      exact ⟨mem_roomMembers_socketJoin rooms (boardRoom boardId) socketId, rfl⟩

/-- Witness for C4: user `u2` (a member of `B1`) joins from socket `s9` and
ends up in the room; `intruder`'s join leaves an empty room table unchanged. -/
theorem C4_join_board_membership_witness :
    "s9" ∈ roomMembers (onJoinBoard dbLA [] "s9" "u2" "B1").rooms (boardRoom "B1") ∧
    onJoinBoard dbLA [] "s9" "intruder" "B1" =
      { rooms := [], repliesToRequester := [] } := by
  refine ⟨((C4_join_board_membership dbLA [] "s9" "u2" "B1").2 (by decide)).1,
          (C4_join_board_membership dbLA [] "s9" "intruder" "B1").1 (by decide)⟩

/-- C10: every client socket handler reacts to a relayed event by a full
board refetch (query invalidation) exactly when the acting user's id in the
event differs from the client's own user id, and otherwise ignores the event
— including events from a different connection of the same user, since the
comparison uses user ids only; no handler merges the payload into the local
view (the only reactions are `refetchBoard` and `ignore`).  All five handlers
behave identically. -/
theorem C10_refetch_iff_foreign_actor (selfUserId actorId : Option String) :
    (handleCardMovedClient selfUserId actorId = .refetchBoard ↔ actorId ≠ selfUserId) ∧
    (handleCardMovedClient selfUserId actorId = .ignore ↔ actorId = selfUserId) ∧
    handleCardUpdatedClient selfUserId actorId = handleCardMovedClient selfUserId actorId ∧
    handleCommentAddedClient selfUserId actorId = handleCardMovedClient selfUserId actorId ∧
    handleListUpdatedClient selfUserId actorId = handleCardMovedClient selfUserId actorId ∧
    handleListsReorderedClient selfUserId actorId = handleCardMovedClient selfUserId actorId := by
  by_cases h : actorId = selfUserId <;>
    simp [handleCardMovedClient, handleCardUpdatedClient, handleCommentAddedClient,
          handleListUpdatedClient, handleListsReorderedClient, h]

/-! ### Allocator properties -/

/-- The max-keeping accumulator step never produces `none`. -/
theorem maxByPositionStep_ne_none {α : Type} (pos : α → Int) (acc : Option α)
    (x : α) : maxByPositionStep pos acc x ≠ none := by
  cases acc with
  | none => exact fun h => Option.noConfusion h
  | some b =>
    show (if pos b < pos x then some x else some b) ≠ none
    split
    · exact fun h => Option.noConfusion h
    · exact fun h => Option.noConfusion h

/-- Characterisation of one max-keeping step: the kept row is the new row or
the accumulator, and bounds both. -/
theorem maxByPositionStep_eq {α : Type} (pos : α → Int) (acc : Option α)
    (x y : α) (h : maxByPositionStep pos acc x = some y) :
    (y = x ∨ acc = some y) ∧ pos x ≤ pos y ∧
      (∀ b, acc = some b → pos b ≤ pos y) := by
  cases acc with
  | none =>
    have h' : some x = some y := h
    cases h'
    exact ⟨Or.inl rfl, le_refl _, fun b hb => by cases hb⟩
  | some b =>
    have h' : (if pos b < pos x then some x else some b) = some y := h
    by_cases hlt : pos b < pos x
    · rw [if_pos hlt] at h'
      cases h'
      exact ⟨Or.inl rfl, le_refl _, fun c hc => by cases hc; exact le_of_lt hlt⟩
    · rw [if_neg hlt] at h'
      cases h'
      exact ⟨Or.inr rfl, le_of_not_lt hlt, fun c hc => by cases hc; exact le_refl _⟩

/-- The max-keeping fold never discards its input: a `none` result forces an
empty accumulator and an empty input. -/
theorem foldl_maxByPositionStep_none {α : Type} (pos : α → Int) :
    ∀ (l : List α) (acc : Option α),
      l.foldl (maxByPositionStep pos) acc = none → acc = none ∧ l = [] := by
  intro l
  induction l with
  | nil => intro acc h; exact ⟨h, rfl⟩
  | cons a t ih =>
    intro acc h
    rw [List.foldl_cons] at h
    exact absurd (ih _ h).1 (maxByPositionStep_ne_none pos acc a)

/-- The max-keeping fold returns a maximum: its result bounds every input
element and the accumulator, and is itself an input element or the
accumulator. -/
theorem foldl_maxByPositionStep_spec {α : Type} (pos : α → Int) :
    ∀ (l : List α) (acc : Option α) (m : α),
      l.foldl (maxByPositionStep pos) acc = some m →
      (∀ x ∈ l, pos x ≤ pos m) ∧
      (∀ b, acc = some b → pos b ≤ pos m) ∧
      (acc = some m ∨ m ∈ l) := by
  intro l
  induction l with
  | nil =>
    intro acc m h
    have h' : acc = some m := h
    refine ⟨fun x hx => absurd hx (List.not_mem_nil x), ?_, Or.inl h'⟩
    intro b hb
    rw [hb] at h'
    cases h'
    exact le_refl _
  | cons a t ih =>
    intro acc m h
    rw [List.foldl_cons] at h
    obtain ⟨A, B, C⟩ := ih (maxByPositionStep pos acc a) m h
    cases hstep : maxByPositionStep pos acc a with
    | none => exact absurd hstep (maxByPositionStep_ne_none pos acc a)
    | some y =>
      obtain ⟨hy1, hy2, hy3⟩ := maxByPositionStep_eq pos acc a y hstep
      have hym : pos y ≤ pos m := B y hstep
      have ham : pos a ≤ pos m := le_trans hy2 hym
      refine ⟨?_, ?_, ?_⟩
      · intro x hx
        rcases List.mem_cons.1 hx with rfl | hx
        · exact ham
        · exact A x hx
      · intro b hb
        exact le_trans (hy3 b hb) hym
      · rcases C with C | C
        · rw [hstep] at C
          cases C
          rcases hy1 with rfl | hacc
          · exact Or.inr (List.mem_cons_self _ _)
          · exact Or.inl hacc
        · exact Or.inr (List.mem_cons_of_mem _ C)

/-- When the card query returns `none`, the list has no cards. -/
theorem lastCardByPositionDesc_none (cards : List Card) (lid : String)
    (h : lastCardByPositionDesc cards lid = none) :
    ∀ c ∈ cards, ¬ c.listId = lid := by
  intro c hc hlid
  have h' : (cards.filter (fun c => c.listId == lid)).foldl
      (maxByPositionStep (fun c : Card => c.position)) none = none := h
  have h2 := (foldl_maxByPositionStep_none (fun c : Card => c.position) _ _ h').2
  have hm : c ∈ cards.filter (fun c => c.listId == lid) :=
    List.mem_filter.2 ⟨hc, by simp [hlid]⟩
  rw [h2] at hm
  cases hm

/-- When the card query returns a row, it is a sibling of maximal position. -/
theorem lastCardByPositionDesc_some (cards : List Card) (lid : String) (m : Card)
    (h : lastCardByPositionDesc cards lid = some m) :
    m ∈ cards ∧ m.listId = lid ∧
      ∀ c ∈ cards, c.listId = lid → c.position ≤ m.position := by
  have h' : (cards.filter (fun c => c.listId == lid)).foldl
      (maxByPositionStep (fun c : Card => c.position)) none = some m := h
  obtain ⟨A, B, C⟩ :=
    foldl_maxByPositionStep_spec (fun c : Card => c.position) _ none m h'
  have hm : m ∈ cards.filter fun c => c.listId == lid := by
    rcases C with C | C
    · cases C
    · exact C
  have hmem := List.mem_filter.1 hm
  refine ⟨hmem.1, by simpa using hmem.2, ?_⟩
  intro c hc hlid
  exact A c (List.mem_filter.2 ⟨hc, by simp [hlid]⟩)

/-- When the list query returns `none`, the board has no lists. -/
theorem lastListByPositionDesc_none (lists : List BoardList) (bid : String)
    (h : lastListByPositionDesc lists bid = none) :
    ∀ l ∈ lists, ¬ l.boardId = bid := by
  intro l hl hbid
  have h' : (lists.filter (fun l => l.boardId == bid)).foldl
      (maxByPositionStep (fun l : BoardList => l.position)) none = none := h
  have h2 := (foldl_maxByPositionStep_none (fun l : BoardList => l.position) _ _ h').2
  have hm : l ∈ lists.filter (fun l => l.boardId == bid) :=
    List.mem_filter.2 ⟨hl, by simp [hbid]⟩
  rw [h2] at hm
  cases hm

/-- When the list query returns a row, it is a sibling of maximal position. -/
theorem lastListByPositionDesc_some (lists : List BoardList) (bid : String)
    (m : BoardList) (h : lastListByPositionDesc lists bid = some m) :
    m ∈ lists ∧ m.boardId = bid ∧
      ∀ l ∈ lists, l.boardId = bid → l.position ≤ m.position := by
  have h' : (lists.filter (fun l => l.boardId == bid)).foldl
      (maxByPositionStep (fun l : BoardList => l.position)) none = some m := h
  obtain ⟨A, B, C⟩ :=
    foldl_maxByPositionStep_spec (fun l : BoardList => l.position) _ none m h'
  have hm : m ∈ lists.filter fun l => l.boardId == bid := by
    rcases C with C | C
    · cases C
    · exact C
  have hmem := List.mem_filter.1 hm
  refine ⟨hmem.1, by simpa using hmem.2, ?_⟩
  intro l hl hbid
  exact A l (List.mem_filter.2 ⟨hl, by simp [hbid]⟩)

/-- C6: a card created in a list, or a list created in a board, without an
explicit position gets order key `max existing sibling key + 1000` — stated
as: the assigned position equals some sibling's position plus 1000 where
that sibling's position bounds every sibling — and exactly 1000 when the
container has no siblings. -/
theorem C6_initial_position_is_max_sibling_plus_step
    (db : DB) (userId listId boardId newId newId2 : String)
    (hl : findAccessibleList db userId listId ≠ none)
    (hb : findAccessibleBoard db userId boardId ≠ none) :
    (∃ c db1, createCardHandler db userId listId none newId = (.created c, db1) ∧
      ((∀ s ∈ db.cards, ¬ s.listId = listId) → c.position = 1000) ∧
      (∀ s0 ∈ db.cards, s0.listId = listId →
        ∃ s ∈ db.cards, s.listId = listId ∧ c.position = s.position + 1000 ∧
          ∀ t ∈ db.cards, t.listId = listId → t.position ≤ s.position)) ∧
    (∃ l db2, createListHandler db userId boardId none newId2 = (.created l, db2) ∧
      ((∀ s ∈ db.lists, ¬ s.boardId = boardId) → l.position = 1000) ∧
      (∀ s0 ∈ db.lists, s0.boardId = boardId →
        ∃ s ∈ db.lists, s.boardId = boardId ∧ l.position = s.position + 1000 ∧
          ∀ t ∈ db.lists, t.boardId = boardId → t.position ≤ s.position)) := by
  constructor
  · cases hacc : findAccessibleList db userId listId with
    | none => exact absurd hacc hl
    | some l0 =>
      unfold createCardHandler
      rw [hacc]
      cases hlast : lastCardByPositionDesc db.cards listId with
      | none =>
        refine ⟨_, _, rfl, fun _ => rfl, ?_⟩
        intro s0 hs0 hlid
        exact absurd hlid (lastCardByPositionDesc_none db.cards listId hlast s0 hs0)
      | some mx =>
        obtain ⟨hmx1, hmx2, hmx3⟩ := lastCardByPositionDesc_some db.cards listId mx hlast
        refine ⟨_, _, rfl, ?_, ?_⟩
        · intro hno
          exact absurd hmx2 (hno mx hmx1)
        · intro s0 hs0 hlid
          exact ⟨mx, hmx1, hmx2, rfl, hmx3⟩
  · cases hacc : findAccessibleBoard db userId boardId with
    | none => exact absurd hacc hb
    | some b0 =>
      unfold createListHandler
      rw [hacc]
      cases hlast : lastListByPositionDesc db.lists boardId with
      | none =>
        refine ⟨_, _, rfl, fun _ => rfl, ?_⟩
        intro s0 hs0 hbid
        exact absurd hbid (lastListByPositionDesc_none db.lists boardId hlast s0 hs0)
      | some mx =>
        obtain ⟨hmx1, hmx2, hmx3⟩ := lastListByPositionDesc_some db.lists boardId mx hlast
        refine ⟨_, _, rfl, ?_, ?_⟩
        · intro hno
          exact absurd hmx2 (hno mx hmx1)
        · intro s0 hs0 hbid
          exact ⟨mx, hmx1, hmx2, rfl, hmx3⟩

/-- Witness for C6: on the fixture store, `u2` may create a card in `L` and a
list in `B1`, so the access hypotheses of the theorem are satisfiable. -/
theorem C6_initial_position_witness :
    ∃ c db1, createCardHandler dbLA "u2" "L" none "N" = (.created c, db1) := by
  obtain ⟨⟨c, db1, heq, -, -⟩, -⟩ :=
    C6_initial_position_is_max_sibling_plus_step dbLA "u2" "L" "B1" "N" "M"
      (by decide) (by decide)
  exact ⟨c, db1, heq⟩

/-! ### Reorder and move properties -/

/-- The whole reorder batch, folded into a single per-row function. -/
def updListFun (n : Nat) (ids : List String) (l : BoardList) : BoardList :=
  match ids with
  | [] => l
  | lid :: rest =>
    updListFun (n + 1) rest (listPosUpd lid (((n : Int) + 1) * 1000) l)

/-- The sequential batch equals a single map of the per-row function. -/
theorem applyListUpdatesFrom_eq_map :
    ∀ (ids : List String) (n : Nat) (lists : List BoardList),
      applyListUpdatesFrom n ids lists = lists.map (updListFun n ids) := by
  intro ids
  induction ids with
  | nil =>
    intro n lists
    show lists = lists.map (updListFun n [])
    have h : updListFun n [] = fun l : BoardList => l := rfl
    rw [h, List.map_id']
  | cons lid rest ih =>
    intro n lists
    show applyListUpdatesFrom (n + 1) rest
        (lists.map (listPosUpd lid (((n : Int) + 1) * 1000))) = _
    rw [ih, List.map_map]
    rfl

/-- A single reorder update preserves each row's id. -/
theorem listPosUpd_id (lid : String) (key : Int) (l : BoardList) :
    (listPosUpd lid key l).id = l.id := by
  unfold listPosUpd
  split <;> rfl

/-- The whole batch preserves each row's id. -/
theorem updListFun_id :
    ∀ (ids : List String) (n : Nat) (l : BoardList),
      (updListFun n ids l).id = l.id := by
  intro ids
  induction ids with
  | nil => intro n l; rfl
  | cons lid rest ih =>
    intro n l
    show (updListFun (n + 1) rest (listPosUpd lid (((n : Int) + 1) * 1000) l)).id = l.id
    rw [ih, listPosUpd_id]

/-- A row whose id is not in the batch is untouched. -/
theorem updListFun_not_mem :
    ∀ (ids : List String) (n : Nat) (l : BoardList),
      l.id ∉ ids → updListFun n ids l = l := by
  intro ids
  induction ids with
  | nil => intro n l _; rfl
  | cons lid rest ih =>
    intro n l h
    have h1 : l.id ≠ lid := fun e => h (by rw [e]; exact List.mem_cons_self _ _)
    have h2 : l.id ∉ rest := fun m => h (List.mem_cons_of_mem _ m)
    show updListFun (n + 1) rest (listPosUpd lid (((n : Int) + 1) * 1000) l) = l
    have hupd : listPosUpd lid (((n : Int) + 1) * 1000) l = l := by
      unfold listPosUpd
      rw [if_neg (by simp [h1])]
    rw [hupd]
    exact ih (n + 1) l h2

/-- For distinct ids, the row matching the `i`-th id receives exactly the key
of slot `n + i`. -/
theorem updListFun_get :
    ∀ (ids : List String), ids.Nodup →
      ∀ (n i : Nat) (hi : i < ids.length) (l : BoardList),
        l.id = ids.get ⟨i, hi⟩ →
        updListFun n ids l =
          { l with position := ((n : Int) + (i : Int) + 1) * 1000 } := by
  intro ids
  induction ids with
  | nil => intro _ n i hi; exact absurd hi (by simp)
  | cons lid rest ih =>
    intro hnd n i hi l hl
    have hnd1 : lid ∉ rest := (List.nodup_cons.1 hnd).1
    have hnd2 : rest.Nodup := (List.nodup_cons.1 hnd).2
    cases i with
    | zero =>
      have hl' : l.id = lid := hl
      show updListFun (n + 1) rest (listPosUpd lid (((n : Int) + 1) * 1000) l) = _
      have hupd : listPosUpd lid (((n : Int) + 1) * 1000) l =
          { l with position := ((n : Int) + 1) * 1000 } := by
        unfold listPosUpd
        rw [if_pos (by simp [hl'])]
      rw [hupd]
      have hnot : ({ l with position := ((n : Int) + 1) * 1000 } : BoardList).id ∉ rest := by
        show l.id ∉ rest
        rw [hl']
        exact hnd1
      rw [updListFun_not_mem rest (n + 1) _ hnot]
      have : ((n : Int) + 1) * 1000 = ((n : Int) + ((0 : Nat) : Int) + 1) * 1000 := by
        norm_num
      rw [this]
    | succ j =>
      have hj : j < rest.length := by simpa using hi
      have hl' : l.id = rest.get ⟨j, hj⟩ := hl
      have hne : l.id ≠ lid := by
        rw [hl']
        intro e
        exact hnd1 (e ▸ List.get_mem rest j hj)
      show updListFun (n + 1) rest (listPosUpd lid (((n : Int) + 1) * 1000) l) = _
      have hupd : listPosUpd lid (((n : Int) + 1) * 1000) l = l := by
        unfold listPosUpd
        rw [if_neg (by simp [hne])]
      rw [hupd]
      rw [ih hnd2 (n + 1) j hj l hl']
      have : (((n + 1 : Nat) : Int) + (j : Int) + 1) * 1000 =
          ((n : Int) + ((j + 1 : Nat) : Int) + 1) * 1000 := by
        push_cast
        ring
      rw [this]

/-- C7: reordering the lists of a board along an ordered sequence of distinct
list ids reassigns the row matching the `i`-th id (0-based) the fresh key
`(i + 1) * 1000`, so the assigned keys are `1000, 2000, 3000, …` — pairwise
distinct — and their ascending order equals the order of the given
sequence. -/
theorem C7_reorder_assigns_step_spaced_keys
    (db : DB) (userId boardId : String) (listIds : List String) (db2 : DB)
    (hnd : listIds.Nodup)
    (h : reorderListsHandler db userId boardId listIds = some db2) :
    (∀ (i : Nat) (hi : i < listIds.length), ∀ l ∈ db2.lists,
        l.id = listIds.get ⟨i, hi⟩ → l.position = ((i : Int) + 1) * 1000) ∧
    (∀ (i j : Nat) (hi : i < listIds.length) (hj : j < listIds.length),
      ∀ l ∈ db2.lists, ∀ l2 ∈ db2.lists,
        l.id = listIds.get ⟨i, hi⟩ → l2.id = listIds.get ⟨j, hj⟩ → i < j →
          l.position < l2.position) := by
  have hlists : db2.lists = db.lists.map (updListFun 0 listIds) := by
    unfold reorderListsHandler at h
    cases hacc : findAccessibleBoard db userId boardId with
    | none => rw [hacc] at h; cases h
    | some b =>
      rw [hacc] at h
      cases h
      exact applyListUpdatesFrom_eq_map listIds 0 db.lists
  have key : ∀ (i : Nat) (hi : i < listIds.length), ∀ l ∈ db2.lists,
      l.id = listIds.get ⟨i, hi⟩ → l.position = ((i : Int) + 1) * 1000 := by
    intro i hi l hl hid
    rw [hlists] at hl
    obtain ⟨l0, hl0, rfl⟩ := List.mem_map.1 hl
    have hid0 : l0.id = listIds.get ⟨i, hi⟩ := by
      rw [← updListFun_id listIds 0 l0]
      exact hid
    rw [updListFun_get listIds hnd 0 i hi l0 hid0]
    show ((0 : Int) + (i : Int) + 1) * 1000 = ((i : Int) + 1) * 1000
    ring
  refine ⟨key, ?_⟩
  intro i j hi hj l hl l2 hl2 hidi hidj hij
  rw [key i hi l hl hidi, key j hj l2 hl2 hidj]
  have hij' : (i : Int) < (j : Int) := by exact_mod_cast hij
  nlinarith

/-- Witness for C7: reordering `[L2, L1]` on the concrete two-list board
gives `L2` the key `(0 + 1) * 1000`. -/
theorem C7_reorder_witness :
    (⟨"L2", "B1", 1000⟩ : BoardList).position = ((0 : Int) + 1) * 1000 := by
  have h := C7_reorder_assigns_step_spaced_keys dbTwoLists "u1" "B1"
      ["L2", "L1"]
      { boards := [⟨"B1", "u1", ["u2"]⟩]
        lists := [⟨"L1", "B1", 2000⟩, ⟨"L2", "B1", 1000⟩]
        cards := [] }
      (by decide) (by decide)
  exact h.1 0 (by decide) ⟨"L2", "B1", 1000⟩ (by decide) (by decide)

/-- The move update preserves each row's id. -/
theorem moveCardUpd_id (req : MoveRequest) (c : Card) :
    (moveCardUpd req c).id = c.id := by
  unfold moveCardUpd
  split <;> rfl

/-- C9: for every authorized move request, the handler succeeds for any
integer position whatsoever and persists exactly the client-supplied
`(listId, position)` pair on the moved card — no neighbour keys are
re-derived, no relation between the new position and existing sibling keys
is checked, and every other card row is left exactly as it was (so the only
outcomes are 404 and success; no `InvalidRangeError`-style path exists). -/
theorem C9_move_persists_supplied_pair
    (db : DB) (userId : String) (req : MoveRequest) (card0 : Card)
    (l0 : BoardList)
    (hc : findAccessibleCard db userId req.cardId = some card0)
    (hl : findAccessibleList db userId req.listId = some l0) :
    (moveCardHandler db userId req).1 =
      .moved { card0 with listId := req.listId, position := req.position } ∧
    (∀ c ∈ (moveCardHandler db userId req).2.cards,
        c.id = req.cardId → c.listId = req.listId ∧ c.position = req.position) ∧
    (∀ c ∈ (moveCardHandler db userId req).2.cards,
        c.id ≠ req.cardId → c ∈ db.cards) := by
  unfold moveCardHandler
  rw [hc, hl]
  refine ⟨rfl, ?_, ?_⟩
  · intro c hcm hid
    have hcm' : c ∈ db.cards.map (moveCardUpd req) := hcm
    obtain ⟨c0, hc0, rfl⟩ := List.mem_map.1 hcm'
    by_cases h0 : (c0.id == req.cardId) = true
    · have : moveCardUpd req c0 =
          { c0 with listId := req.listId, position := req.position } := by
        unfold moveCardUpd
        rw [if_pos h0]
      rw [this]
      exact ⟨rfl, rfl⟩
    · have : moveCardUpd req c0 = c0 := by
        unfold moveCardUpd
        rw [if_neg h0]
      rw [this] at hid
      exact absurd (by simp [hid]) h0
  · intro c hcm hne
    have hcm' : c ∈ db.cards.map (moveCardUpd req) := hcm
    obtain ⟨c0, hc0, rfl⟩ := List.mem_map.1 hcm'
    by_cases h0 : (c0.id == req.cardId) = true
    · exfalso
      apply hne
      rw [moveCardUpd_id]
      simpa using h0
    · have : moveCardUpd req c0 = c0 := by
        unfold moveCardUpd
        rw [if_neg h0]
      rw [this]
      exact hc0

/-- Witness for C9: moving card `C` to the arbitrary (even negative) position
`-7` succeeds and persists exactly that position. -/
theorem C9_move_witness :
    (moveCardHandler dbLA "u1" ⟨"C", "L", -7⟩).1 = .moved ⟨"C", "L", -7⟩ := by
  have h := C9_move_persists_supplied_pair dbLA "u1" ⟨"C", "L", -7⟩
      ⟨"C", "L", 2000⟩ ⟨"L", "B1", 1000⟩ (by decide) (by decide)
  exact h.1

end MiniTrello
